import Mathlib

/-!
Verification development for the fedora-coreos-cincinnati update-metadata
service.  The definitions below are a shallow embedding of the Rust sources:

* `src/dumnati/src/graph.rs` — graph assembly (`Graph::from_metadata`,
  `Graph::compute_edges`);
* `src/commons/src/policy.rs` — policy filters (`filter_deadends`,
  `pick_basearch`, `throttle_rollouts`);
* `src/fcos-policy-engine/src/main.rs` / `src/dumnati/src/main.rs` —
  `compute_wariness` (identical in both binaries);
* `src/fcos-graph-builder/src/scraper.rs` — the `GetCachedGraph` handler.

Modelling conventions: Rust machine integers are modelled as `Nat`/`Int`
with explicit reductions modulo `2 ^ 64` where wrap-around matters; `f64`
values are modelled as exact rationals (`ℚ`), so the special floating
values `inf`/`nan` and rounding are outside the model; fallible Rust code
returns `Except String`; `HashMap<String, String>` node metadata is
modelled extensionally as `String → Option String`; the wall clock read by
`throttle_rollouts` (`chrono::Utc::now().timestamp()`) is passed in as an
explicit `now : Int` parameter.
-/

/-! ### String → number parsing, as done by Rust `str::parse` -/

/-- Decimal digit run to a natural number: `none` unless the character list
is non-empty and all-ASCII-digits (mirrors Rust integer-literal parsing). -/
def digitRun : List Char → Option Nat
  | [] => none
  | cs =>
    if cs.all Char.isDigit then
      some (cs.foldl (fun acc c => acc * 10 + (c.toNat - 48)) 0)
    else
      none

/-- Rust `str::parse::<u64>`: optional leading `+`, digits, range check. -/
def parseU64 (s : String) : Option Nat :=
  let cs := match s.toList with
    | '+' :: rest => rest
    | cs => cs
  match digitRun cs with
  | some v => if v < 2 ^ 64 then some v else none
  | none => none

/-- Rust `str::parse::<i64>`: optional sign, digits, range check. -/
def parseI64 (s : String) : Option Int :=
  let signed : Bool × List Char := match s.toList with
    | '+' :: rest => (false, rest)
    | '-' :: rest => (true, rest)
    | cs => (false, cs)
  match digitRun signed.2 with
  | some v =>
    if signed.1 then
      if v ≤ 2 ^ 63 then some (-(v : Int)) else none
    else
      if v < 2 ^ 63 then some (v : Int) else none
  | none => none

/-- Exact value of a decimal mantissa `intPart.fracPart` as a rational. -/
def mantissaVal (intPart fracPart : List Char) : ℚ :=
  let digitsNat : List Char → Nat :=
    fun cs => cs.foldl (fun acc c => acc * 10 + (c.toNat - 48)) 0
  ((digitsNat intPart * 10 ^ fracPart.length + digitsNat fracPart : ℕ) : ℚ) /
    ((10 ^ fracPart.length : ℕ) : ℚ)

/-- Rust `str::parse::<f64>`, modelled over exact rationals: optional sign,
decimal mantissa with optional fraction, optional decimal exponent.  The
floating special forms `inf`/`infinity`/`nan` are outside the rational
model and are mapped to `none`. -/
def parseF64 (s : String) : Option ℚ :=
  let signed : Bool × List Char := match s.toList with
    | '+' :: rest => (false, rest)
    | '-' :: rest => (true, rest)
    | cs => (false, cs)
  let cs := signed.2
  let intPart := cs.takeWhile Char.isDigit
  let rest1 := cs.dropWhile Char.isDigit
  let fracSplit : List Char × List Char := match rest1 with
    | '.' :: t => (t.takeWhile Char.isDigit, t.dropWhile Char.isDigit)
    | _ => ([], rest1)
  let fracPart := fracSplit.1
  let rest2 := fracSplit.2
  if intPart.length + fracPart.length = 0 then none
  else
    let mant := mantissaVal intPart fracPart
    let mant := if signed.1 then -mant else mant
    match rest2 with
    | [] => some mant
    | 'e' :: t => parseF64Exp mant t
    | 'E' :: t => parseF64Exp mant t
    | _ => none
where
  /-- Exponent suffix: optional sign and a non-empty digit run. -/
  parseF64Exp (mant : ℚ) (t : List Char) : Option ℚ :=
    let esigned : Bool × List Char := match t with
      | '+' :: rest => (false, rest)
      | '-' :: rest => (true, rest)
      | cs => (false, cs)
    match digitRun esigned.2 with
    | some e =>
      if esigned.1 then some (mant / ((10 ^ e : ℕ) : ℚ))
      else some (mant * ((10 ^ e : ℕ) : ℚ))
    | none => none

/-! ### Order helpers that reduce in the kernel -/

/-- `Nat` maximum, written with `if` so concrete instances evaluate. -/
def nmax (a b : Nat) : Nat := if a ≤ b then b else a

/-- `Nat` minimum, written with `if` so concrete instances evaluate. -/
def nmin (a b : Nat) : Nat := if a ≤ b then a else b

/-- `Int` maximum, written with `if` so concrete instances evaluate. -/
def imax (a b : Int) : Int := if a ≤ b then b else a

/-- `Int` minimum, written with `if` so concrete instances evaluate. -/
def imin (a b : Int) : Int := if a ≤ b then a else b

/-- `ℚ` maximum (Rust `f64::max` on ordinary values), `if`-based. -/
def qmax (a b : ℚ) : ℚ := if a ≤ b then b else a

/-- `ℚ` minimum (Rust `f64::min` on ordinary values), `if`-based. -/
def qmin (a b : ℚ) : ℚ := if a ≤ b then a else b

/-! ### 64-bit arithmetic helpers -/

/-- Wrap an unbounded integer into the `i64` value range (two's complement
wrap-around, as Rust release-mode `+` does). -/
def i64wrap (x : Int) : Int := (x + 2 ^ 63) % 2 ^ 64 - 2 ^ 63

/-- Rust `u64 as i64` (bit reinterpretation) for `u < 2 ^ 64`. -/
def u64asI64 (u : Nat) : Int :=
  if u < 2 ^ 63 then (u : Int) else (u : Int) - 2 ^ 64

/-- Rust `u64::saturating_mul` by 60. -/
def u64satMul60 (m : Nat) : Nat := nmin (m * 60) (2 ^ 64 - 1)

/-- Rust `i64::saturating_sub`. -/
def i64satSub (a b : Int) : Int := imax (-(2 ^ 63)) (imin (a - b) (2 ^ 63 - 1))

/-! ### Node metadata (Rust `HashMap<String, String>`, extensionally) -/

/-- Node metadata: a partial map from string keys to string values. -/
def Md : Type := String → Option String

/-- The empty metadata map. -/
def mdEmpty : Md := fun _ => none

/-- `HashMap::insert` (overwrites any previous value for the key). -/
def mdInsert (m : Md) (k v : String) : Md :=
  fun k2 => if k2 = k then some v else m k2

/-- Canonical metadata keys from `src/commons/src/metadata.rs`. -/
def SCHEME : String := "org.fedoraproject.coreos.scheme"

def AGE_INDEX : String := "org.fedoraproject.coreos.releases.age_index"

def ARCH_KEY_ROOT : String := "org.fedoraproject.coreos.releases.arch"

def BARRIER : String := "org.fedoraproject.coreos.updates.barrier"

def BARRIER_REASON : String := "org.fedoraproject.coreos.updates.barrier_reason"

def DEADEND : String := "org.fedoraproject.coreos.updates.deadend"

def DEADEND_REASON : String := "org.fedoraproject.coreos.updates.deadend_reason"

def ROLLOUT : String := "org.fedoraproject.coreos.updates.rollout"

def DURATION : String := "org.fedoraproject.coreos.updates.duration_minutes"

def START_EPOCH : String := "org.fedoraproject.coreos.updates.start_epoch"

def START_VALUE : String := "org.fedoraproject.coreos.updates.start_value"

/-! ### Served graph (`src/dumnati/src/graph.rs`) -/

/-- Single release entry in the Cincinnati update-graph. -/
structure CincinnatiPayload where
  version : String
  metadata : Md
  payload : String

instance : Inhabited CincinnatiPayload :=
  ⟨{ version := "", metadata := mdEmpty, payload := "" }⟩

/-- Cincinnati update-graph: releases (nodes) and update paths (edges). -/
structure Graph where
  nodes : List CincinnatiPayload
  edges : List (Nat × Nat)

/-! ### Upstream metadata (`src/commons/src/metadata.rs`) -/

structure ReleaseCommit where
  architecture : String
  checksum : String

structure Release where
  commits : List ReleaseCommit
  version : String
  metadata : String

structure UpdateBarrier where
  reason : String

structure UpdateDeadend where
  reason : String

structure UpdateRollout where
  start_epoch : Option Int
  start_percentage : Option ℚ
  duration_minutes : Option Nat

structure UpdateMetadata where
  barrier : Option UpdateBarrier
  deadend : Option UpdateDeadend
  rollout : Option UpdateRollout

structure ReleaseUpdate where
  version : String
  metadata : UpdateMetadata

structure UpdatesJSON where
  stream : String
  releases : List ReleaseUpdate

/-! ### Edge computation (`Graph::compute_edges`) -/

/-- Whether node `i` carries the rollout marker (the source checks
`metadata.contains_key(ROLLOUT)`). -/
def isRollout (nodes : List CincinnatiPayload) (i : Nat) : Bool :=
  match nodes.get? i with
  | some rel => (rel.metadata ROLLOUT).isSome
  | none => false

/-- Whether node `i` carries the barrier marker. -/
def isBarrier (nodes : List CincinnatiPayload) (i : Nat) : Bool :=
  match nodes.get? i with
  | some rel => (rel.metadata BARRIER).isSome
  | none => false

/-- The sorted set of rollout indices (Rust `BTreeSet` iterates
in ascending order). -/
def rolloutsOf (nodes : List CincinnatiPayload) : List Nat :=
  (List.range nodes.length).filter (fun i => isRollout nodes i)

/-- The sorted set of barrier indices. -/
def barriersOf (nodes : List CincinnatiPayload) : List Nat :=
  (List.range nodes.length).filter (fun i => isBarrier nodes i)

/-- Edges `(i, t)` for `i ∈ [lo, t)` (the `for i in lo..t` push loop). -/
def rangeEdges (lo t : Nat) : List (Nat × Nat) :=
  (List.range' lo (t - lo)).map (fun i => (i, t))

/-- `barriers.range((Unbounded, Excluded(age))).next_back().unwrap_or(0)`:
the last element below `age` of the ascending barrier list, or 0. -/
def prevBarrierCode (barriers : List Nat) (age : Nat) : Nat :=
  ((barriers.filter (fun b => b < age)).getLast?).getD 0

/-- First pass of `compute_edges`: iterate node indices in reverse order,
and for each rollout emit edges back to the previous barrier. -/
def rolloutPass (nodes : List CincinnatiPayload) (ages : List Nat) : List (Nat × Nat) :=
  ages.bind fun age =>
    if isRollout nodes age then
      rangeEdges (prevBarrierCode (barriersOf nodes) age) age
    else
      []

/-- Second pass of `compute_edges`: walk the ascending barrier list with a
`start` accumulator, emitting edges into each barrier that is not also a
rollout; `start` advances to every barrier, rollout or not. -/
def barrierPass (rollouts : List Nat) : Nat → List Nat → List (Nat × Nat)
  | _, [] => []
  | start, t :: rest =>
    (if t ∈ rollouts then [] else rangeEdges start t) ++
      barrierPass rollouts t rest

/-- The edge list assembled by `Graph::compute_edges`. -/
def edgesOf (nodes : List CincinnatiPayload) : List (Nat × Nat) :=
  rolloutPass nodes (List.range nodes.length).reverse ++
    barrierPass (rolloutsOf nodes) 0 (barriersOf nodes)

/-- `Graph::compute_edges` (its `Fallible` result type; the body has no
error path). -/
def compute_edges (nodes : List CincinnatiPayload) : Except String (List (Nat × Nat)) :=
  Except.ok (edgesOf nodes)

/-! ### Graph assembly (`Graph::from_metadata`) -/

/-- Node-construction step: `age_index`, then one `arch.<a>` entry per
commit with non-empty architecture and checksum. -/
def baseNode (ageIndex : Nat) (entry : Release) : CincinnatiPayload :=
  { version := entry.version
    payload := ""
    metadata :=
      entry.commits.foldl
        (fun md c =>
          if c.architecture = "" || c.checksum = "" then md
          else mdInsert md (ARCH_KEY_ROOT ++ "." ++ c.architecture) c.checksum)
        (mdInsert mdEmpty AGE_INDEX (toString ageIndex)) }

/-- `Graph::inject_deadend_reason`. -/
def inject_deadend_reason (updates : UpdatesJSON) (release : CincinnatiPayload) :
    CincinnatiPayload :=
  updates.releases.foldl
    (fun cur entry =>
      if entry.version ≠ cur.version then cur
      else
        match entry.metadata.deadend with
        | some deadend =>
          let reason := if deadend.reason = "" then "generic" else deadend.reason
          { cur with
            metadata := mdInsert (mdInsert cur.metadata DEADEND "true") DEADEND_REASON reason }
        | none => cur)
    release

/-- `Graph::inject_barrier_reason`. -/
def inject_barrier_reason (updates : UpdatesJSON) (release : CincinnatiPayload) :
    CincinnatiPayload :=
  updates.releases.foldl
    (fun cur entry =>
      if entry.version ≠ cur.version then cur
      else
        match entry.metadata.barrier with
        | some barrier =>
          let reason := if barrier.reason = "" then "generic" else barrier.reason
          { cur with
            metadata := mdInsert (mdInsert cur.metadata BARRIER "true") BARRIER_REASON reason }
        | none => cur)
    release

/-- `Graph::inject_throttling_params`.  The upstream `start_percentage`
is an `f64`, modelled as `ℚ`; its Rust `to_string` is modelled by `ℚ`'s
decimal-or-fraction representation. -/
def inject_throttling_params (updates : UpdatesJSON) (release : CincinnatiPayload) :
    CincinnatiPayload :=
  updates.releases.foldl
    (fun cur entry =>
      if entry.version ≠ cur.version then cur
      else
        match entry.metadata.rollout with
        | some rollout =>
          let md := mdInsert cur.metadata ROLLOUT "true"
          let md := match rollout.start_epoch with
            | some v => mdInsert md START_EPOCH (toString v)
            | none => md
          let md := match rollout.start_percentage with
            | some v => mdInsert md START_VALUE (toString v)
            | none => md
          let md := match rollout.duration_minutes with
            | some v => mdInsert md DURATION (toString v)
            | none => md
          { cur with metadata := md }
        | none => cur)
    release

/-- The node list assembled by `Graph::from_metadata`. -/
def assembledNodes (releases : List Release) (updates : UpdatesJSON) :
    List CincinnatiPayload :=
  releases.enum.map fun p =>
    inject_throttling_params updates
      (inject_barrier_reason updates
        (inject_deadend_reason updates (baseNode p.1 p.2)))

/-- The graph assembled by `Graph::from_metadata` (the always-taken `Ok`
branch). -/
def assembledGraph (releases : List Release) (updates : UpdatesJSON) : Graph :=
  { nodes := assembledNodes releases updates
    edges := edgesOf (assembledNodes releases updates) }

/-- `Graph::from_metadata`, with its `Fallible` result type. -/
def from_metadata (releases : List Release) (updates : UpdatesJSON) :
    Except String Graph :=
  match compute_edges (assembledNodes releases updates) with
  | Except.ok edges => Except.ok { nodes := assembledNodes releases updates, edges := edges }
  | Except.error e => Except.error e

/-! ### Policy filters (`src/commons/src/policy.rs`) -/

/-- Membership of index `i` in the `deadends` set built by
`filter_deadends` (`metadata.get(DEADEND) == Some("true")`). -/
def isDeadendIdx (nodes : List CincinnatiPayload) (i : Nat) : Bool :=
  match nodes.get? i with
  | some rel => rel.metadata DEADEND == some "true"
  | none => false

/-- `filter_deadends`: prune outgoing edges from dead-end nodes. -/
def filter_deadends (input : Graph) : Graph :=
  { input with edges := input.edges.filter (fun e => !isDeadendIdx input.nodes e.1) }

/-- Strip every metadata key starting with the arch root
(`metadata.retain(|k, _| !k.starts_with(ARCH_PREFIX))`). -/
def stripArchKeys (m : Md) : Md :=
  fun k => if String.startsWith k ARCH_KEY_ROOT then none else m k

/-- `HashMap::remove` of a key. -/
def mdRemove (m : Md) (k : String) : Md :=
  fun k2 => if k2 = k then none else m k2

/-- Per-node payload selection inside `pick_basearch`. -/
def pickNode (key : String) (rel : CincinnatiPayload) : CincinnatiPayload :=
  match rel.metadata key with
  | some payload =>
    { rel with
      payload := payload
      metadata := stripArchKeys (mdInsert (mdRemove rel.metadata key) SCHEME "checksum") }
  | none => { rel with metadata := stripArchKeys rel.metadata }

/-- `pick_basearch`: the hardcoded allowlist check (`bail!` unless the
requested basearch is `x86_64`), then payload selection per node. -/
def pick_basearch (input : Graph) (basearch : String) : Except String Graph :=
  if basearch ≠ "x86_64" then
    Except.error ("unexpected basearch " ++ basearch)
  else
    Except.ok
      { input with
        nodes := input.nodes.map (pickNode (ARCH_KEY_ROOT ++ "." ++ basearch)) }

/-- The `start_epoch` read by `throttle_rollouts` (string-parsed, any
failure or absence defaulting to 0). -/
def startEpochOf (md : Md) : Int :=
  match md START_EPOCH with
  | some epoch => (parseI64 epoch).getD 0
  | none => 0

/-- The `start_value` read by `throttle_rollouts` (defaults to 0.0). -/
def startValueOf (md : Md) : ℚ :=
  match md START_VALUE with
  | some val => (parseF64 val).getD 0
  | none => 0

/-- The `minutes` read by `throttle_rollouts`: present only when the
`DURATION` value parses as `u64`, then clamped with `m.max(1)`. -/
def minutesOf (md : Md) : Option Nat :=
  match md DURATION with
  | some mins =>
    match parseU64 mins with
    | some m => some (nmax m 1)
    | none => none
  | none => none

/-- The per-node `throttling` value computed by `throttle_rollouts`,
including the 64-bit saturating/wrapping arithmetic of the source. -/
def rolloutThrottling (now : Int) (md : Md) : ℚ :=
  let start_epoch := startEpochOf md
  let start_value := startValueOf md
  match minutesOf md with
  | some mins =>
    let endT := i64wrap (start_epoch + u64asI64 (u64satMul60 mins))
    let rate := (1 - start_value) / ((i64satSub endT start_epoch : Int) : ℚ)
    if now < start_epoch then 0
    else if now > endT then 1
    else start_value + rate * ((now - start_epoch : Int) : ℚ)
  | none =>
    if now < start_epoch then 0 else start_value

/-- Membership of a node in the `hidden` set of `throttle_rollouts`:
a rollout whose throttling is strictly below the client wariness. -/
def nodeHidden (now : Int) (wariness : ℚ) (rel : CincinnatiPayload) : Bool :=
  (rel.metadata ROLLOUT).isSome &&
    decide (rolloutThrottling now rel.metadata < wariness)

/-- `throttle_rollouts`: prune incoming edges towards hidden rollouts. -/
def throttle_rollouts (now : Int) (input : Graph) (client_wariness : ℚ) : Graph :=
  { input with
    edges :=
      input.edges.filter fun e =>
        match input.nodes.get? e.2 with
        | some rel => !nodeHidden now client_wariness rel
        | none => true }

/-! ### SipHash-1-3 (Rust `DefaultHasher`) and `compute_wariness` -/

/-- Reduce modulo `2 ^ 64`. -/
def w64 (n : Nat) : Nat := n % 2 ^ 64

/-- Rotate a 64-bit word left by `r`. -/
def rotl64 (x r : Nat) : Nat := w64 (x * 2 ^ r) + x / 2 ^ (64 - r)

/-- SipHash internal state. -/
structure SipState where
  v0 : Nat
  v1 : Nat
  v2 : Nat
  v3 : Nat

/-- One SipRound. -/
def sipround (s : SipState) : SipState :=
  let v0 := w64 (s.v0 + s.v1)
  let v1 := rotl64 s.v1 13
  let v1 := v1 ^^^ v0
  let v0 := rotl64 v0 32
  let v2 := w64 (s.v2 + s.v3)
  let v3 := rotl64 s.v3 16
  let v3 := v3 ^^^ v2
  let v0 := w64 (v0 + v3)
  let v3 := rotl64 v3 21
  let v3 := v3 ^^^ v0
  let v2 := w64 (v2 + v1)
  let v1 := rotl64 v1 17
  let v1 := v1 ^^^ v2
  let v2 := rotl64 v2 32
  { v0 := v0, v1 := v1, v2 := v2, v3 := v3 }

/-- Little-endian byte-list value. -/
def leBytes (bs : List Nat) : Nat := bs.foldr (fun b acc => b + acc * 256) 0

/-- Absorb one 8-byte message block (SipHash-1-3: one round). -/
def sipBlock (s : SipState) (m : Nat) : SipState :=
  let s := { s with v3 := s.v3 ^^^ m }
  let s := sipround s
  { s with v0 := s.v0 ^^^ m }

/-- Consume full 8-byte blocks, then the final padded block that holds the
remaining bytes and the total length modulo 256 in the top byte. -/
def sipBlocks (len : Nat) : SipState → List Nat → SipState
  | s, b0 :: b1 :: b2 :: b3 :: b4 :: b5 :: b6 :: b7 :: rest =>
    sipBlocks len (sipBlock s (leBytes [b0, b1, b2, b3, b4, b5, b6, b7])) rest
  | s, short => sipBlock s (leBytes short + len % 256 * 2 ^ 56)

/-- SipHash-1-3 of a byte list (value of each entry below 256). -/
def siphash13 (k0 k1 : Nat) (data : List Nat) : Nat :=
  let s : SipState :=
    { v0 := k0 ^^^ 0x736f6d6570736575
      v1 := k1 ^^^ 0x646f72616e646f6d
      v2 := k0 ^^^ 0x6c7967656e657261
      v3 := k1 ^^^ 0x7465646279746573 }
  let s := sipBlocks data.length s data
  let s := { s with v2 := s.v2 ^^^ 0xff }
  let s := sipround (sipround (sipround s))
  s.v0 ^^^ s.v1 ^^^ s.v2 ^^^ s.v3

/-- UTF-8 encoding of one character, as byte values. -/
def utf8Bytes (c : Char) : List Nat :=
  let n := c.toNat
  if n < 0x80 then [n]
  else if n < 0x800 then [0xC0 + n / 0x40, 0x80 + n % 0x40]
  else if n < 0x10000 then
    [0xE0 + n / 0x1000, 0x80 + n / 0x40 % 0x40, 0x80 + n % 0x40]
  else
    [0xF0 + n / 0x40000, 0x80 + n / 0x1000 % 0x40, 0x80 + n / 0x40 % 0x40,
      0x80 + n % 0x40]

/-- The UTF-8 byte sequence of a string. -/
def stringUtf8 (s : String) : List Nat := s.toList.foldr (fun c acc => utf8Bytes c ++ acc) []

/-- Rust `DefaultHasher` (SipHash-1-3, zero keys) of a string hashed via
`Hash for str`: the UTF-8 bytes followed by a `0xff` marker byte. -/
def defaultHashString (s : String) : Nat :=
  siphash13 0 0 (stringUtf8 s ++ [0xff])

/-- The query parameters consumed by `compute_wariness`. -/
structure WarinessQuery where
  rollout_wariness : Option String
  node_uuid : Option String

/-- `compute_wariness` (`src/fcos-policy-engine/src/main.rs` and
`src/dumnati/src/main.rs`, identical): a parseable `rollout_wariness` is
clamped into [0, 1]; otherwise the node uuid (defaulting to the empty
string) is hashed and scaled by `u64::MAX`, clamped into [1e-6, 1]. -/
def compute_wariness (params : WarinessQuery) : ℚ :=
  match parseF64 (params.rollout_wariness.getD "") with
  | some input => qmin (qmax input 0) 1
  | none =>
    let uuid := params.node_uuid.getD ""
    let digest := defaultHashString uuid
    let scaled := (digest : ℚ) / ((2 ^ 64 - 1 : ℕ) : ℚ)
    qmin (qmax scaled (1 / 1000000)) 1

/-! ### Scraper reader contract (`src/fcos-graph-builder/src/scraper.rs`) -/

/-- A `(basearch, stream, oci)` scope. -/
structure GraphScope where
  basearch : String
  stream : String
  oci : Bool
deriving DecidableEq

/-- The scraper state relevant to `GetCachedGraph`: the stream it serves,
its per-arch cached serialized graphs (legacy and OCI, opaque byte buffers
modelled as strings), and the `cached_graph_requests_total` counter keyed
by its `(basearch, stream, graph_type)` labels. -/
structure Scraper where
  stream : String
  graphs : List (String × String)
  oci_graphs : List (String × String)
  cachedGraphRequests : String × String × String → Nat

/-- `Handler<GetCachedGraph> for Scraper`: reject a stream mismatch;
otherwise look up the requested basearch in the matching graph map,
incrementing the cache-requests metric on success. -/
def handleGetCachedGraph (s : Scraper) (scope : GraphScope) :
    Except String String × Scraper :=
  let graph_type := if scope.oci then "oci" else "checksum"
  if scope.stream ≠ s.stream then
    (Except.error ("unexpected stream " ++ scope.stream), s)
  else
    let target_graphmap := if scope.oci then s.oci_graphs else s.graphs
    match target_graphmap.lookup scope.basearch with
    | some graph =>
      (Except.ok graph,
        { s with
          cachedGraphRequests := fun l =>
            if l = (scope.basearch, scope.stream, graph_type) then
              s.cachedGraphRequests l + 1
            else
              s.cachedGraphRequests l })
    | none => (Except.error ("unexpected basearch " ++ scope.basearch), s)

/-! ### Claim-side definitions -/

/-- Claim side: the greatest barrier index strictly below `r`, or 0 if
none (maximum of the barrier indices below `r`, starting from 0). -/
def maxBarrierBelow (nodes : List CincinnatiPayload) (r : Nat) : Nat :=
  ((barriersOf nodes).filter (fun b => b < r)).foldl Nat.max 0

/-- Claim side (C1): the edges the spec asserts the assembler emits — into
every rollout from the previous barrier, and into every non-rollout
barrier from the previous barrier. -/
def assemblyEdgeSpec (nodes : List CincinnatiPayload) (e : Nat × Nat) : Prop :=
  (e.2 ∈ rolloutsOf nodes ∧ maxBarrierBelow nodes e.2 ≤ e.1 ∧ e.1 < e.2) ∨
    (e.2 ∈ barriersOf nodes ∧ e.2 ∉ rolloutsOf nodes ∧
      maxBarrierBelow nodes e.2 ≤ e.1 ∧ e.1 < e.2)

/-- Claim side (C4): the set `D` of node indices whose metadata has
`deadend = "true"`. -/
def deadendSet (g : Graph) : Finset Nat :=
  (Finset.range g.nodes.length).filter (fun i => isDeadendIdx g.nodes i = true)

/-! ### Claim-side throttling formulas and well-formedness bounds -/

/-- Claim side (C3, as stated): `end = start_epoch + duration*60` with the
parsed duration used as-is (no clamping to a minimum of one minute). -/
def throttlingClaimed (now : Int) (md : Md) : ℚ :=
  let se := startEpochOf md
  let sv := startValueOf md
  match (md DURATION).bind parseU64 with
  | some d =>
    let endT : Int := se + ((d * 60 : ℕ) : Int)
    let rate := (1 - sv) / ((endT - se : Int) : ℚ)
    if now < se then 0 else if now > endT then 1
    else sv + rate * ((now - se : Int) : ℚ)
  | none => if now < se then 0 else sv

/-- Claim side (C3, amended): same formula but over the duration the code
actually uses — parsed and clamped with `m.max(1)` — and with exact
(non-wrapping) integer arithmetic. -/
def throttlingSpec (now : Int) (md : Md) : ℚ :=
  let se := startEpochOf md
  let sv := startValueOf md
  match minutesOf md with
  | some mins =>
    let endT : Int := se + ((mins * 60 : ℕ) : Int)
    let rate := (1 - sv) / ((endT - se : Int) : ℚ)
    if now < se then 0 else if now > endT then 1
    else sv + rate * ((now - se : Int) : ℚ)
  | none => if now < se then 0 else sv

/-- The rollout window of this node stays inside the `i64` range, so none
of the saturating/wrapping 64-bit operations in `throttle_rollouts`
trigger. -/
def rolloutBoundsOK (md : Md) : Bool :=
  match minutesOf md with
  | none => true
  | some m =>
    decide (m * 60 < 2 ^ 63) &&
      decide (startEpochOf md + ((m * 60 : ℕ) : Int) < 2 ^ 63)

/-- The parsed `start_value` is non-negative (spec data-model invariant
`0 ≤ start_value`). -/
def startValueOK (md : Md) : Bool := decide (0 ≤ startValueOf md)


/-- C2 claim side: whether node `b` carries `barrier = "true"`. -/
def nodeHasBarrierTrue (nodes : List CincinnatiPayload) (b : Nat) : Bool :=
  match nodes.get? b with
  | some rel => rel.metadata BARRIER == some "true"
  | none => false

/-- C5 claim side: every edge goes from older to newer, stays in bounds,
and the edge sequence carries no duplicate pair. -/
def goodGraph (g : Graph) : Prop :=
  (∀ e ∈ g.edges, e.1 < e.2 ∧ e.2 < g.nodes.length) ∧ g.edges.Nodup

/-- C6 claim side: the basearch allowlist that the `pick_basearch` scope
check enforces (the source hardcodes the single legacy architecture). -/
def basearchAllowlist : List String := ["x86_64"]

/-- C3 claim side (as stated): the edges whose target is not hidden under
the claim throttling formula. -/
def throttleEdgesClaimed (now : Int) (g : Graph) (w : ℚ) : List (Nat × Nat) :=
  g.edges.filter fun e =>
    match g.nodes.get? e.2 with
    | some rel => !((rel.metadata ROLLOUT).isSome &&
        decide (throttlingClaimed now rel.metadata < w))
    | none => true

/-- C3 claim side (amended): the edges whose target is not hidden under
the amended throttling formula. -/
def throttleEdgesSpec (now : Int) (g : Graph) (w : ℚ) : List (Nat × Nat) :=
  g.edges.filter fun e =>
    match g.nodes.get? e.2 with
    | some rel => !((rel.metadata ROLLOUT).isSome &&
        decide (throttlingSpec now rel.metadata < w))
    | none => true

/-! ### Concrete instances used by examples, witnesses and counterexamples -/

/-- A release entry with no update metadata. -/
def plainNode : CincinnatiPayload :=
  { version := "1.0", metadata := mdEmpty, payload := "" }

/-- C1 scenario input: five releases. -/
def c1Releases : List Release :=
  [ { commits := [], version := "v0", metadata := "" },
    { commits := [], version := "v1", metadata := "" },
    { commits := [], version := "v2", metadata := "" },
    { commits := [], version := "v3", metadata := "" },
    { commits := [], version := "v4", metadata := "" } ]

/-- C1 scenario input: barrier on the release at index 2, rollout on the
release at index 4. -/
def c1Updates : UpdatesJSON :=
  { stream := "stable"
    releases :=
      [ { version := "v2",
          metadata :=
            { barrier := some { reason := "cves" }, deadend := none, rollout := none } },
        { version := "v4",
          metadata :=
            { barrier := none, deadend := none,
              rollout := some { start_epoch := some 0, start_percentage := none,
                                duration_minutes := none } } } ] }

/-- C2 witness input: three releases. -/
def c2Releases : List Release :=
  [ { commits := [], version := "v0", metadata := "" },
    { commits := [], version := "v1", metadata := "" },
    { commits := [], version := "v2", metadata := "" } ]

/-- C2 witness input: barrier on the release at index 1. -/
def c2Updates : UpdatesJSON :=
  { stream := "stable"
    releases :=
      [ { version := "v1",
          metadata :=
            { barrier := some { reason := "" }, deadend := none, rollout := none } } ] }

/-- C3 counterexample node: a rollout whose `duration_minutes` string is
`"0"` (the code clamps it to one minute; the claim formula does not). -/
def c3Node : CincinnatiPayload :=
  { version := "1.1", payload := ""
    metadata :=
      mdInsert (mdInsert (mdInsert mdEmpty ROLLOUT "true") START_EPOCH "0") DURATION "0" }

/-- C3 counterexample graph: one edge into the `duration = "0"` rollout. -/
def c3Graph : Graph := { nodes := [plainNode, c3Node], edges := [(0, 1)] }

/-- C3 witness node: an ordinary two-minute rollout. -/
def c3WitNode : CincinnatiPayload :=
  { version := "2.1", payload := ""
    metadata :=
      mdInsert (mdInsert (mdInsert mdEmpty ROLLOUT "true") START_EPOCH "0") DURATION "2" }

/-- C3 witness graph. -/
def c3WitGraph : Graph := { nodes := [plainNode, c3WitNode], edges := [(0, 1)] }

/-- C4 example node: a dead-end. -/
def c4DeadNode : CincinnatiPayload :=
  { version := "1.1", payload := ""
    metadata := mdInsert (mdInsert mdEmpty DEADEND "true") DEADEND_REASON "generic" }

/-- C4 scenario graph: edges `(0,1),(1,2),(2,3)` with node 1 a dead-end. -/
def c4Graph : Graph :=
  { nodes := [plainNode, c4DeadNode, plainNode, plainNode]
    edges := [(0, 1), (1, 2), (2, 3)] }

/-- C5 witness input: two releases. -/
def c5Releases : List Release :=
  [ { commits := [{ architecture := "x86_64", checksum := "sha-a" }],
      version := "w0", metadata := "" },
    { commits := [{ architecture := "x86_64", checksum := "sha-b" }],
      version := "w1", metadata := "" } ]

/-- C5 witness input: barrier on the release at index 1. -/
def c5Updates : UpdatesJSON :=
  { stream := "stable"
    releases :=
      [ { version := "w1",
          metadata :=
            { barrier := some { reason := "fix" }, deadend := none, rollout := none } } ] }

/-- C8 counterexample node: a rollout whose `start_value` parses to a
negative number. -/
def c8Node : CincinnatiPayload :=
  { version := "1.1", payload := ""
    metadata := mdInsert (mdInsert mdEmpty ROLLOUT "true") START_VALUE "-1" }

/-- C8 counterexample graph: one edge into the negative-value rollout. -/
def c8Graph : Graph := { nodes := [plainNode, c8Node], edges := [(0, 1)] }

/-- C8 witness node: a well-formed rollout. -/
def c8WitNode : CincinnatiPayload :=
  { version := "2.1", payload := ""
    metadata :=
      mdInsert (mdInsert (mdInsert mdEmpty ROLLOUT "true") START_EPOCH "0") DURATION "2" }

/-- C8 witness graph. -/
def c8WitGraph : Graph := { nodes := [plainNode, c8WitNode], edges := [(0, 1)] }

/-- C9 scenario scraper: serves stream `testing` with one cached graph per
kind for basearch `x86_64`, all request counters at zero. -/
def c9Scraper : Scraper :=
  { stream := "testing"
    graphs := [("x86_64", "serialized-testing-graph")]
    oci_graphs := [("x86_64", "serialized-testing-oci-graph")]
    cachedGraphRequests := fun _ => 0 }

/-- C9 scenario request scope `(x86_64, stable)`, mismatching the stream. -/
def c9MismatchScope : GraphScope :=
  { basearch := "x86_64", stream := "stable", oci := false }

/-- C9 witness request scope `(x86_64, testing)`, matching the scraper. -/
def c9MatchScope : GraphScope :=
  { basearch := "x86_64", stream := "testing", oci := false }

/-! ### List helper lemmas -/

theorem nmax_eq (a b : Nat) : nmax a b = max a b := (max_def a b).symm

theorem nmin_eq (a b : Nat) : nmin a b = min a b := (min_def a b).symm

theorem imax_eq (a b : Int) : imax a b = max a b := (max_def a b).symm

theorem imin_eq (a b : Int) : imin a b = min a b := (min_def a b).symm

theorem qmax_eq (a b : ℚ) : qmax a b = max a b := (max_def a b).symm

theorem qmin_eq (a b : ℚ) : qmin a b = min a b := (min_def a b).symm

theorem le_foldl_max (l : List Nat) (m x : Nat) (hx : x ∈ l) :
    x ≤ l.foldl Nat.max m := by
  induction l generalizing m with
  | nil => cases hx
  | cons a t ih =>
    rcases List.mem_cons.mp hx with rfl | hmem
    · calc x ≤ Nat.max m x := Nat.le_max_right _ _
        _ ≤ (t.foldl Nat.max (Nat.max m x)) := init_le_foldl_max t _
    · exact ih _ hmem
where
  init_le_foldl_max (l : List Nat) (m : Nat) : m ≤ l.foldl Nat.max m := by
    induction l generalizing m with
    | nil => exact Nat.le_refl m
    | cons a t ih => exact Nat.le_trans (Nat.le_max_left m a) (ih _)

theorem foldl_max_eq_getLast (t : List Nat) (m : Nat)
    (hs : t.Pairwise (· < ·)) (hm : ∀ x ∈ t, m ≤ x) :
    t.foldl Nat.max m = (t.getLast?).getD m := by
  induction t generalizing m with
  | nil => rfl
  | cons b t2 ih =>
    have hmb : Nat.max m b = b := Nat.max_eq_right (hm b (List.mem_cons_self _ _))
    have hs2 : t2.Pairwise (· < ·) := (List.pairwise_cons.mp hs).2
    have hb2 : ∀ x ∈ t2, b ≤ x := fun x hx =>
      Nat.le_of_lt ((List.pairwise_cons.mp hs).1 x hx)
    cases t2 with
    | nil => simp [List.foldl, hmb, List.getLast?]
    | cons c t3 =>
      have := ih (Nat.max m b) hs2 (by simpa [hmb] using hb2)
      simpa [List.foldl, List.getLast?_cons_cons] using this

theorem barriersOf_sorted (nodes : List CincinnatiPayload) :
    (barriersOf nodes).Pairwise (· < ·) :=
  (List.pairwise_lt_range _).filter _

theorem prevBarrierCode_eq_max (nodes : List CincinnatiPayload) (age : Nat) :
    prevBarrierCode (barriersOf nodes) age = maxBarrierBelow nodes age := by
  unfold prevBarrierCode maxBarrierBelow
  exact
    (foldl_max_eq_getLast _ 0 ((barriersOf_sorted nodes).filter _)
      (fun x _ => Nat.zero_le x)).symm

theorem mem_rangeEdges {lo t : Nat} {e : Nat × Nat} :
    e ∈ rangeEdges lo t ↔ e.2 = t ∧ lo ≤ e.1 ∧ e.1 < t := by
  unfold rangeEdges
  constructor
  · intro h
    rcases List.mem_map.mp h with ⟨i, hi, rfl⟩
    have := List.mem_range'_1.mp hi
    exact ⟨rfl, this.1, by omega⟩
  · rintro ⟨h2, hlo, hlt⟩
    exact List.mem_map.mpr ⟨e.1, List.mem_range'_1.mpr ⟨hlo, by omega⟩,
      by cases e; simp_all⟩

theorem mem_rolloutPass {nodes : List CincinnatiPayload} {ages : List Nat}
    {e : Nat × Nat} :
    e ∈ rolloutPass nodes ages ↔
      ∃ age ∈ ages, isRollout nodes age = true ∧ e.2 = age ∧
        maxBarrierBelow nodes age ≤ e.1 ∧ e.1 < age := by
  unfold rolloutPass
  rw [List.mem_bind]
  constructor
  · rintro ⟨age, hage, hmem⟩
    by_cases hr : isRollout nodes age = true
    · rw [if_pos hr, prevBarrierCode_eq_max] at hmem
      rcases mem_rangeEdges.mp hmem with ⟨h2, hlo, hlt⟩
      exact ⟨age, hage, hr, h2, hlo, hlt⟩
    · rw [if_neg hr] at hmem
      cases hmem
  · rintro ⟨age, hage, hr, h2, hlo, hlt⟩
    refine ⟨age, hage, ?_⟩
    rw [if_pos hr, prevBarrierCode_eq_max]
    exact mem_rangeEdges.mpr ⟨h2, hlo, hlt⟩

theorem mem_barrierPass {rollouts : List Nat} {e : Nat × Nat} :
    ∀ (bs : List Nat) (start : Nat), bs.Pairwise (· < ·) →
      (∀ x ∈ bs, start ≤ x) →
      (e ∈ barrierPass rollouts start bs ↔
        ∃ t ∈ bs, t ∉ rollouts ∧ e.2 = t ∧
          (bs.filter (fun b => b < t)).foldl Nat.max start ≤ e.1 ∧ e.1 < t) := by
  intro bs
  induction bs with
  | nil => simp [barrierPass]
  | cons b rest ih =>
    intro start hs hstart
    have hb : start ≤ b := hstart b (List.mem_cons_self _ _)
    have hrest : ∀ x ∈ rest, b ≤ x := fun x hx =>
      Nat.le_of_lt ((List.pairwise_cons.mp hs).1 x hx)
    have hs2 : rest.Pairwise (· < ·) := (List.pairwise_cons.mp hs).2
    unfold barrierPass
    rw [List.mem_append, ih b hs2 hrest]
    constructor
    · rintro (hleft | ⟨t, ht, hnr, h2, hlo, hlt⟩)
      · by_cases hbr : b ∈ rollouts
        · rw [if_pos hbr] at hleft; cases hleft
        · rw [if_neg hbr] at hleft
          rcases mem_rangeEdges.mp hleft with ⟨h2, hlo, hlt⟩
          refine ⟨b, List.mem_cons_self _ _, hbr, h2, ?_, hlt⟩
          have hfilt : (b :: rest).filter (fun x => x < b) = [] := by
            rw [List.filter_eq_nil]
            intro x hx
            rcases List.mem_cons.mp hx with rfl | hx2
            · simp
            · simpa using Nat.not_lt.mpr (hrest x hx2)
          rw [hfilt]
          exact hlo
      · refine ⟨t, List.mem_cons_of_mem _ ht, hnr, h2, ?_, hlt⟩
        have hbt : b < t := (List.pairwise_cons.mp hs).1 t ht
        have hfilt : (b :: rest).filter (fun x => x < t) =
            b :: rest.filter (fun x => x < t) := by
          simp [List.filter_cons, hbt]
        rw [hfilt]
        simpa [List.foldl, Nat.max_eq_right hb] using hlo
    · rintro ⟨t, ht, hnr, h2, hlo, hlt⟩
      rcases List.mem_cons.mp ht with rfl | ht2
      · left
        rw [if_neg hnr]
        refine mem_rangeEdges.mpr ⟨h2, ?_, hlt⟩
        have hfilt : (t :: rest).filter (fun x => x < t) = [] := by
          rw [List.filter_eq_nil]
          intro x hx
          rcases List.mem_cons.mp hx with rfl | hx2
          · simp
          · simpa using Nat.not_lt.mpr (hrest x hx2)
        rwa [hfilt] at hlo
      · right
        refine ⟨t, ht2, hnr, h2, ?_, hlt⟩
        have hbt : b < t := (List.pairwise_cons.mp hs).1 t ht2
        have hfilt : (b :: rest).filter (fun x => x < t) =
            b :: rest.filter (fun x => x < t) := by
          simp [List.filter_cons, hbt]
        rw [hfilt] at hlo
        simpa [List.foldl, Nat.max_eq_right hb] using hlo

theorem mem_rolloutsOf {nodes : List CincinnatiPayload} {i : Nat} :
    i ∈ rolloutsOf nodes ↔ i < nodes.length ∧ isRollout nodes i = true := by
  unfold rolloutsOf
  rw [List.mem_filter, List.mem_range]

theorem mem_barriersOf {nodes : List CincinnatiPayload} {i : Nat} :
    i ∈ barriersOf nodes ↔ i < nodes.length ∧ isBarrier nodes i = true := by
  unfold barriersOf
  rw [List.mem_filter, List.mem_range]

/-- Characterization of the assembled edge list: exactly the edges the
spec describes (shared by several claims below). -/
theorem mem_edgesOf {nodes : List CincinnatiPayload} {e : Nat × Nat} :
    e ∈ edgesOf nodes ↔ assemblyEdgeSpec nodes e := by
  unfold edgesOf assemblyEdgeSpec
  rw [List.mem_append, mem_rolloutPass,
    mem_barrierPass (barriersOf nodes) 0 (barriersOf_sorted nodes)
      (fun x _ => Nat.zero_le x)]
  constructor
  · rintro (⟨age, hage, hr, h2, hlo, hlt⟩ | ⟨t, ht, hnr, h2, hlo, hlt⟩)
    · left
      have hlen : age < nodes.length := List.mem_range.mp (List.mem_reverse.mp hage)
      subst h2
      exact ⟨mem_rolloutsOf.mpr ⟨hlen, hr⟩, hlo, hlt⟩
    · right
      subst h2
      exact ⟨ht, hnr, hlo, hlt⟩
  · rintro (⟨hr, hlo, hlt⟩ | ⟨ht, hnr, hlo, hlt⟩)
    · left
      rcases mem_rolloutsOf.mp hr with ⟨hlen, hroll⟩
      exact ⟨e.2, List.mem_reverse.mpr (List.mem_range.mpr hlen), hroll, rfl, hlo, hlt⟩
    · right
      exact ⟨e.2, ht, hnr, rfl, hlo, hlt⟩

theorem nodup_rangeEdges (lo t : Nat) : (rangeEdges lo t).Nodup :=
  (List.nodup_range' ..).map fun a b h => congrArg Prod.fst h

theorem nodup_rolloutPass {nodes : List CincinnatiPayload} :
    ∀ (ages : List Nat), ages.Nodup → (rolloutPass nodes ages).Nodup := by
  intro ages
  induction ages with
  | nil => intro; simp [rolloutPass]
  | cons a rest ih =>
    intro hnd
    have hnd2 := (List.nodup_cons.mp hnd).2
    have hna := (List.nodup_cons.mp hnd).1
    have hsplit : rolloutPass nodes (a :: rest) =
        (if isRollout nodes a then
          rangeEdges (prevBarrierCode (barriersOf nodes) a) a else []) ++
          rolloutPass nodes rest := by
      simp [rolloutPass]
    rw [hsplit]
    refine List.Nodup.append ?_ (ih hnd2) ?_
    · by_cases hr : isRollout nodes a = true
      · rw [if_pos hr]; exact nodup_rangeEdges _ _
      · rw [if_neg hr]; exact List.nodup_nil
    · intro e he1 he2
      have h2a : e.2 = a := by
        by_cases hr : isRollout nodes a = true
        · rw [if_pos hr] at he1; exact (mem_rangeEdges.mp he1).1
        · rw [if_neg hr] at he1; cases he1
      rcases mem_rolloutPass.mp he2 with ⟨age, hage, _, h2t, _, _⟩
      exact hna (h2a ▸ h2t ▸ hage)

theorem nodup_barrierPass {rollouts : List Nat} :
    ∀ (bs : List Nat) (start : Nat), bs.Pairwise (· < ·) →
      (barrierPass rollouts start bs).Nodup := by
  intro bs
  induction bs with
  | nil => intro start _; simp [barrierPass]
  | cons b rest ih =>
    intro start hs
    have hs2 : rest.Pairwise (· < ·) := (List.pairwise_cons.mp hs).2
    unfold barrierPass
    refine List.Nodup.append ?_ (ih b hs2) ?_
    · by_cases hbr : b ∈ rollouts
      · rw [if_pos hbr]; exact List.nodup_nil
      · rw [if_neg hbr]; exact nodup_rangeEdges _ _
    · intro e he1 he2
      have h2b : e.2 = b := by
        by_cases hbr : b ∈ rollouts
        · rw [if_pos hbr] at he1; cases he1
        · rw [if_neg hbr] at he1; exact (mem_rangeEdges.mp he1).1
      rcases (mem_barrierPass rest b hs2
        (fun x hx => Nat.le_of_lt ((List.pairwise_cons.mp hs).1 x hx))).mp he2 with
        ⟨t, ht, _, h2t, _, _⟩
      have hbt : b < t := (List.pairwise_cons.mp hs).1 t ht
      omega

theorem nodup_edgesOf (nodes : List CincinnatiPayload) : (edgesOf nodes).Nodup := by
  unfold edgesOf
  refine List.Nodup.append
    (nodup_rolloutPass _ (List.nodup_reverse.mpr (List.nodup_range _)))
    (nodup_barrierPass _ 0 (barriersOf_sorted nodes)) ?_
  intro e he1 he2
  rcases mem_rolloutPass.mp he1 with ⟨age, hage, hroll, h2t, _, _⟩
  have hlen : age < nodes.length := List.mem_range.mp (List.mem_reverse.mp hage)
  have hmem : e.2 ∈ rolloutsOf nodes := h2t ▸ mem_rolloutsOf.mpr ⟨hlen, hroll⟩
  rcases (mem_barrierPass (barriersOf nodes) 0 (barriersOf_sorted nodes)
    (fun x _ => Nat.zero_le x)).mp he2 with ⟨t, _, hnr, h2t2, _, _⟩
  exact hnr (h2t2 ▸ hmem)

theorem parseI64_bounds {s : String} {v : Int} (h : parseI64 s = some v) :
    -(2 ^ 63) ≤ v ∧ v < 2 ^ 63 := by
  simp only [parseI64] at h
  split at h
  next n heq =>
    split at h
    · split at h
      · injection h with h
        omega
      · cases h
    · split at h
      · injection h with h
        omega
      · cases h
  next heq => cases h

theorem startEpochOf_bounds (md : Md) :
    -(2 ^ 63) ≤ startEpochOf md ∧ startEpochOf md < 2 ^ 63 := by
  unfold startEpochOf
  rcases md START_EPOCH with _ | s
  · constructor <;> norm_num
  · dsimp only
    rcases hp : parseI64 s with _ | v
    · constructor <;> norm_num
    · simpa using parseI64_bounds hp

theorem i64wrap_eq_self {x : Int} (h1 : -(2 ^ 63) ≤ x) (h2 : x < 2 ^ 63) :
    i64wrap x = x := by
  unfold i64wrap
  omega

/-- Under in-range bounds the 64-bit throttling computation coincides with
the exact arithmetic of the amended claim formula. -/
theorem rolloutThrottling_eq_spec {md : Md} (now : Int)
    (hok : rolloutBoundsOK md = true) :
    rolloutThrottling now md = throttlingSpec now md := by
  unfold rolloutThrottling throttlingSpec
  unfold rolloutBoundsOK at hok
  rcases hm : minutesOf md with _ | m
  · rfl
  · rw [hm] at hok
    simp only [Bool.and_eq_true, decide_eq_true_eq] at hok
    rcases hok with ⟨hm60, hsum⟩
    have hse := startEpochOf_bounds md
    have hsat : u64satMul60 m = m * 60 := by
      unfold u64satMul60
      rw [nmin_eq]
      omega
    have hcast : u64asI64 (u64satMul60 m) = ((m * 60 : ℕ) : Int) := by
      rw [hsat]
      unfold u64asI64
      rw [if_pos (by exact_mod_cast hm60)]
    have hwrap : i64wrap (startEpochOf md + u64asI64 (u64satMul60 m)) =
        startEpochOf md + ((m * 60 : ℕ) : Int) := by
      rw [hcast]
      exact i64wrap_eq_self (by omega) hsum
    have hsub : i64satSub (startEpochOf md + ((m * 60 : ℕ) : Int)) (startEpochOf md) =
        ((m * 60 : ℕ) : Int) := by
      unfold i64satSub
      rw [imin_eq, imax_eq]
      omega
    simp only [hwrap, hsub, add_sub_cancel_left]

theorem minutesOf_pos {md : Md} {m : Nat} (h : minutesOf md = some m) : 1 ≤ m := by
  unfold minutesOf at h
  split at h
  · split at h
    · injection h with h
      rw [nmax_eq] at h
      omega
    · cases h
  · cases h

theorem throttleMidNonneg {sv A D : ℚ} (hsv : 0 ≤ sv) (hA : 0 ≤ A) (hAD : A ≤ D) :
    0 ≤ sv + (1 - sv) / D * A := by
  rcases eq_or_lt_of_le (hA.trans hAD) with hD | hD
  · have hA0 : A = 0 := le_antisymm (hAD.trans hD.symm.le) hA
    simp [hA0, hsv]
  · have key : sv + (1 - sv) / D * A = (sv * (D - A) + A) / D := by
      field_simp
      ring
    rw [key]
    apply div_nonneg _ hD.le
    have := mul_nonneg hsv (sub_nonneg.mpr hAD)
    linarith

/-- With a non-negative parsed `start_value` and an in-range rollout
window, the computed throttling is never negative. -/
theorem rolloutThrottling_nonneg (now : Int) {md : Md}
    (hsv : startValueOK md = true) (hok : rolloutBoundsOK md = true) :
    0 ≤ rolloutThrottling now md := by
  rw [rolloutThrottling_eq_spec now hok]
  have hsv0 : (0 : ℚ) ≤ startValueOf md := by
    simpa [startValueOK] using hsv
  unfold throttlingSpec
  rcases hm : minutesOf md with _ | m
  · dsimp only
    split
    · exact le_refl 0
    · exact hsv0
  · dsimp only
    split_ifs with h1 h2
    · exact le_refl 0
    · exact zero_le_one
    · have hA : (0 : ℚ) ≤ ((now - startEpochOf md : ℤ) : ℚ) := by
        exact_mod_cast Int.sub_nonneg.mpr (Int.not_lt.mp h1)
      have hAD : ((now - startEpochOf md : ℤ) : ℚ) ≤
          ((startEpochOf md + ((m * 60 : ℕ) : Int) - startEpochOf md : ℤ) : ℚ) := by
        have h2le := Int.not_lt.mp h2
        exact_mod_cast (by omega : (now - startEpochOf md : ℤ) ≤
          startEpochOf md + ((m * 60 : ℕ) : Int) - startEpochOf md)
      exact throttleMidNonneg hsv0 hA hAD

theorem isDeadendIdx_lt {nodes : List CincinnatiPayload} {i : Nat}
    (h : isDeadendIdx nodes i = true) : i < nodes.length := by
  unfold isDeadendIdx at h
  rcases hg : nodes.get? i with _ | rel
  · rw [hg] at h
    cases h
  · rcases List.get?_eq_some.mp hg with ⟨hl, _⟩
    exact hl

theorem nodeHasBarrierTrue_mem {nodes : List CincinnatiPayload} {b : Nat}
    (h : nodeHasBarrierTrue nodes b = true) : b ∈ barriersOf nodes := by
  unfold nodeHasBarrierTrue at h
  rcases hg : nodes.get? b with _ | rel
  · rw [hg] at h
    cases h
  · rw [hg] at h
    rcases List.get?_eq_some.mp hg with ⟨hl, _⟩
    refine mem_barriersOf.mpr ⟨hl, ?_⟩
    unfold isBarrier
    rw [hg]
    have hv : rel.metadata BARRIER = some "true" := by
      simpa using h
    dsimp only
    rw [hv]
    rfl

/-- C1: the assembled edge list contains an edge exactly when the spec
edge rule produces it — into every rollout from the previous barrier, and
into every non-rollout barrier from the previous barrier — and on the
five-release scenario with a barrier at index 2 and a rollout at index 4
the assembled edge set is exactly `{(0,2),(1,2),(2,4),(3,4)}`. -/
theorem c1_assembler_edges :
    (∀ (nodes : List CincinnatiPayload) (e : Nat × Nat),
        e ∈ edgesOf nodes ↔ assemblyEdgeSpec nodes e) ∧
      (assembledGraph c1Releases c1Updates).edges.toFinset =
        ({(0, 2), (1, 2), (2, 4), (3, 4)} : Finset (Nat × Nat)) :=
  ⟨fun _ _ => mem_edgesOf, by decide⟩

/-- C2: in any assembled graph, a node whose metadata has
`barrier = "true"` is never skipped: no edge jumps from before it to
after it. -/
theorem c2_no_barrier_skipped (releases : List Release) (updates : UpdatesJSON)
    (b : Nat) (e : Nat × Nat)
    (hb : nodeHasBarrierTrue (assembledGraph releases updates).nodes b = true)
    (he : e ∈ (assembledGraph releases updates).edges) :
    ¬(e.1 < b ∧ b < e.2) := by
  rintro ⟨h1, h2⟩
  have hbar : b ∈ barriersOf (assembledNodes releases updates) :=
    nodeHasBarrierTrue_mem hb
  have hble : b ≤ maxBarrierBelow (assembledNodes releases updates) e.2 := by
    apply le_foldl_max
    exact List.mem_filter.mpr ⟨hbar, decide_eq_true h2⟩
  rcases mem_edgesOf.mp he with ⟨_, hlo, _⟩ | ⟨_, _, hlo, _⟩ <;> omega

/-- C2 witness: a barrier at index 1 of a three-release graph, with the
edge `(0, 1)` present, is not skipped. -/
theorem c2_no_barrier_skipped_witness :
    nodeHasBarrierTrue (assembledGraph c2Releases c2Updates).nodes 1 = true ∧
      (0, 1) ∈ (assembledGraph c2Releases c2Updates).edges ∧
      ¬((0, 1).1 < 1 ∧ 1 < (0, 1).2) :=
  ⟨by decide, by decide,
    c2_no_barrier_skipped c2Releases c2Updates 1 (0, 1) (by decide) (by decide)⟩

/-- C10: graph assembly is total — `Graph::from_metadata` returns `Ok`
with the assembled graph on every input; its error branch is
unreachable. -/
theorem c10_from_metadata_total (releases : List Release) (updates : UpdatesJSON) :
    from_metadata releases updates = Except.ok (assembledGraph releases updates) :=
  rfl

/-- C4: `filter_deadends` keeps the node list, retains exactly the edges
whose source is not a dead-end (incoming edges to dead-ends are kept),
and on the scenario graph `{(0,1),(1,2),(2,3)}` with node 1 a dead-end it
yields `{(0,1),(2,3)}`. -/
theorem c4_filter_deadends_spec :
    (∀ g : Graph,
        (filter_deadends g).nodes = g.nodes ∧
          (filter_deadends g).edges =
            g.edges.filter fun e => decide (e.1 ∉ deadendSet g)) ∧
      (filter_deadends c4Graph).edges = [(0, 1), (2, 3)] := by
  constructor
  · intro g
    refine ⟨rfl, ?_⟩
    unfold filter_deadends
    dsimp only
    apply List.filter_congr
    intro e _
    by_cases hd : isDeadendIdx g.nodes e.1 = true
    · have hmem : e.1 ∈ deadendSet g :=
        Finset.mem_filter.mpr ⟨Finset.mem_range.mpr (isDeadendIdx_lt hd), hd⟩
      simp [hd, hmem]
    · have hnm : e.1 ∉ deadendSet g := fun hm => hd (Finset.mem_filter.mp hm).2
      rw [Bool.not_eq_true] at hd
      simp [hd, hnm]
  · decide

/-- C5: every assembled graph satisfies the edge invariant
(`from < to < |nodes|`, no duplicate edges), and each policy filter
preserves it. -/
theorem c5_graph_invariants :
    (∀ (releases : List Release) (updates : UpdatesJSON) (g : Graph),
        from_metadata releases updates = Except.ok g → goodGraph g) ∧
      (∀ g : Graph, goodGraph g → goodGraph (filter_deadends g)) ∧
      (∀ (now : Int) (g : Graph) (w : ℚ), goodGraph g →
        goodGraph (throttle_rollouts now g w)) ∧
      (∀ (g : Graph) (a : String) (g2 : Graph),
        pick_basearch g a = Except.ok g2 → goodGraph g → goodGraph g2) := by
  refine ⟨?_, ?_, ?_, ?_⟩
  · intro releases updates g h
    have hg : g = assembledGraph releases updates := by
      have h2 : from_metadata releases updates =
          Except.ok (assembledGraph releases updates) := rfl
      rw [h2] at h
      exact (Except.ok.inj h).symm
    subst hg
    constructor
    · intro e he
      rcases mem_edgesOf.mp he with ⟨hr, _, hlt⟩ | ⟨hb, _, _, hlt⟩
      · exact ⟨hlt, (mem_rolloutsOf.mp hr).1⟩
      · exact ⟨hlt, (mem_barriersOf.mp hb).1⟩
    · exact nodup_edgesOf _
  · intro g hg
    exact ⟨fun e he => hg.1 e (List.mem_of_mem_filter he), hg.2.filter _⟩
  · intro now g w hg
    exact ⟨fun e he => hg.1 e (List.mem_of_mem_filter he), hg.2.filter _⟩
  · intro g a g2 h hg
    unfold pick_basearch at h
    split at h
    · cases h
    · have hg2 : g2 = { g with nodes := g.nodes.map (pickNode (ARCH_KEY_ROOT ++ "." ++ a)) } :=
        (Except.ok.inj h).symm
      subst hg2
      refine ⟨fun e he => ?_, hg.2⟩
      have := hg.1 e he
      simpa [List.length_map] using this

/-- C5 witness: the invariant holds on a concrete assembled graph. -/
theorem c5_graph_invariants_witness : goodGraph (assembledGraph c5Releases c5Updates) :=
  c5_graph_invariants.1 c5Releases c5Updates _ rfl

/-- C6: `pick_basearch` succeeds exactly on the basearches the allowlist
accepts; on every allowed basearch it returns a graph for every input. -/
theorem c6_pick_basearch_iff (g : Graph) (a : String) :
    (∃ g2, pick_basearch g a = Except.ok g2) ↔ a ∈ basearchAllowlist := by
  unfold pick_basearch basearchAllowlist
  by_cases h : a = "x86_64"
  · subst h
    simp
  · simp [h]

theorem c3Node_throttling_lt_one : rolloutThrottling 30 c3Node.metadata < 1 := by
  unfold rolloutThrottling
  rw [show minutesOf c3Node.metadata = some 1 from rfl]
  dsimp only
  rw [show startEpochOf c3Node.metadata = 0 from rfl,
    show startValueOf c3Node.metadata = 0 from rfl]
  norm_num [i64wrap, u64asI64, u64satMul60, i64satSub, nmin, imin, imax]

theorem c3Node_claimed_eq_one : throttlingClaimed 30 c3Node.metadata = 1 := by
  unfold throttlingClaimed
  rw [show (c3Node.metadata DURATION).bind parseU64 = some 0 from rfl]
  dsimp only
  rw [show startEpochOf c3Node.metadata = 0 from rfl]
  norm_num

/-- C3 (amended): on graphs whose rollout windows stay inside the `i64`
range, `throttle_rollouts` keeps the node list and retains exactly the
edges whose target is not hidden, where a node is hidden exactly when it
is a rollout whose throttling — computed with the parsed duration clamped
to at least one minute — is strictly below the wariness. -/
theorem c3_throttle_rollouts_amended (now : Int) (g : Graph) (w : ℚ)
    (h : ∀ rel ∈ g.nodes, rolloutBoundsOK rel.metadata = true) :
    (throttle_rollouts now g w).nodes = g.nodes ∧
      (throttle_rollouts now g w).edges = throttleEdgesSpec now g w := by
  refine ⟨rfl, ?_⟩
  unfold throttle_rollouts throttleEdgesSpec
  dsimp only
  apply List.filter_congr
  intro e _
  rcases hg : g.nodes.get? e.2 with _ | rel
  · rfl
  · have hrel : rel ∈ g.nodes := List.get?_mem hg
    dsimp only
    unfold nodeHidden
    rw [rolloutThrottling_eq_spec now (h rel hrel)]

/-- C3 counterexample: with `duration_minutes = "0"` the code clamps the
duration to one minute and mid-ramp hides the rollout, while the claim
formula (`end = start_epoch + duration*60` with the parsed duration as
is) reports throttling 1 and keeps the edge. -/
theorem c3_throttle_rollouts_counterexample :
    (throttle_rollouts 30 c3Graph 1).edges = [] ∧
      throttleEdgesClaimed 30 c3Graph 1 = [(0, 1)] ∧
      (throttle_rollouts 30 c3Graph 1).edges ≠ throttleEdgesClaimed 30 c3Graph 1 := by
  have hhid : nodeHidden 30 1 c3Node = true := by
    unfold nodeHidden
    rw [show (c3Node.metadata ROLLOUT).isSome = true from rfl]
    simp [c3Node_throttling_lt_one]
  have e1 : (throttle_rollouts 30 c3Graph 1).edges = [] := by
    unfold throttle_rollouts
    dsimp only
    rw [show c3Graph.edges = [(0, 1)] from rfl]
    rw [List.filter_cons]
    rw [show c3Graph.nodes.get? (0, 1).2 = some c3Node from rfl]
    dsimp only
    rw [hhid]
    simp [List.filter_nil]
  have e2 : throttleEdgesClaimed 30 c3Graph 1 = [(0, 1)] := by
    unfold throttleEdgesClaimed
    rw [show c3Graph.edges = [(0, 1)] from rfl]
    rw [List.filter_cons]
    rw [show c3Graph.nodes.get? (0, 1).2 = some c3Node from rfl]
    dsimp only
    rw [show (c3Node.metadata ROLLOUT).isSome = true from rfl, c3Node_claimed_eq_one]
    simp [List.filter_nil]
  exact ⟨e1, e2, by rw [e1, e2]; simp⟩

/-- C3 witness: the amended statement applied to a two-minute rollout. -/
theorem c3_throttle_rollouts_witness :
    (∀ rel ∈ c3WitGraph.nodes, rolloutBoundsOK rel.metadata = true) ∧
      ((throttle_rollouts 60 c3WitGraph (1 / 2)).nodes = c3WitGraph.nodes ∧
        (throttle_rollouts 60 c3WitGraph (1 / 2)).edges =
          throttleEdgesSpec 60 c3WitGraph (1 / 2)) :=
  ⟨by decide, c3_throttle_rollouts_amended 60 c3WitGraph (1 / 2) (by decide)⟩

theorem defaultHashString_empty : defaultHashString "" = 3476900567878811119 := by
  unfold defaultHashString
  rw [show (stringUtf8 "" ++ [0xff]) = [0xff] from by decide]
  unfold siphash13
  dsimp only
  rfl

/-- C7 (amended): when `rollout_wariness` is absent or unparseable, the
wariness is the hash of `node_uuid` — with an absent uuid replaced by the
empty string, which is hashed like any other value — scaled by
`u64::MAX` and clamped into `[1e-6, 1]`; with both fields absent the
result is the fixed hash of the empty string, strictly above the
`1e-6` minimum. -/
theorem c7_wariness_amended :
    (∀ (rwq uuid : Option String), parseF64 (rwq.getD "") = none →
        compute_wariness { rollout_wariness := rwq, node_uuid := uuid } =
          qmin (qmax ((defaultHashString (uuid.getD "") : ℚ) /
            ((2 ^ 64 - 1 : ℕ) : ℚ)) (1 / 1000000)) 1) ∧
      compute_wariness { rollout_wariness := none, node_uuid := none } > 1 / 1000000 := by
  constructor
  · intro rwq uuid h
    unfold compute_wariness
    dsimp only
    rw [h]
  · unfold compute_wariness
    rw [show parseF64 ((none : Option String).getD "") = none from rfl]
    dsimp only
    rw [show ((none : Option String).getD "") = "" from rfl, defaultHashString_empty]
    unfold qmin qmax
    split_ifs with h1 h2 <;> norm_num at *

/-- C7 counterexample: with both `rollout_wariness` and `node_uuid`
absent the derived wariness is the clamped hash of the empty string
(≈ 0.1885), not the minimum `1e-6` the claim states. -/
theorem c7_wariness_counterexample :
    compute_wariness { rollout_wariness := none, node_uuid := none } ≠ 1 / 1000000 := by
  unfold compute_wariness
  rw [show parseF64 ((none : Option String).getD "") = none from rfl]
  dsimp only
  rw [show ((none : Option String).getD "") = "" from rfl, defaultHashString_empty]
  unfold qmin qmax
  split_ifs with h1 h2 <;> norm_num at *

/-- C7 witness: the amended statement applied to a present uuid. -/
theorem c7_wariness_witness :
    parseF64 ((none : Option String).getD "") = none ∧
      compute_wariness { rollout_wariness := none, node_uuid := some "n1" } =
        qmin (qmax ((defaultHashString ((some "n1" : Option String).getD "") : ℚ) /
          ((2 ^ 64 - 1 : ℕ) : ℚ)) (1 / 1000000)) 1 :=
  ⟨rfl, c7_wariness_amended.1 none (some "n1") rfl⟩

theorem c8Node_startValue : startValueOf c8Node.metadata = -1 := by
  unfold startValueOf
  rw [show c8Node.metadata START_VALUE = some "-1" from rfl]
  dsimp only
  rw [show parseF64 "-1" = some (-mantissaVal ['1'] []) from rfl]
  unfold mantissaVal
  norm_num [show '1'.toNat = 49 from rfl]

theorem c8Node_throttling_neg : rolloutThrottling 5 c8Node.metadata < 0 := by
  unfold rolloutThrottling
  rw [show minutesOf c8Node.metadata = none from rfl]
  dsimp only
  rw [show startEpochOf c8Node.metadata = 0 from rfl, c8Node_startValue]
  norm_num

/-- C8 (amended): with wariness 0 no edge is hidden on graphs whose
rollout metadata is well formed (non-negative parsed `start_value`,
rollout window inside the `i64` range); with wariness 1 exactly the
edges into rollouts whose computed throttling is strictly below 1 are
hidden, on every graph. -/
theorem c8_throttle_extremes :
    (∀ (now : Int) (g : Graph),
        (∀ rel ∈ g.nodes, startValueOK rel.metadata = true ∧
            rolloutBoundsOK rel.metadata = true) →
        (throttle_rollouts now g 0).edges = g.edges) ∧
      ∀ (now : Int) (g : Graph),
        (throttle_rollouts now g 1).edges = g.edges.filter fun e =>
          match g.nodes.get? e.2 with
          | some rel => !((rel.metadata ROLLOUT).isSome &&
              decide (rolloutThrottling now rel.metadata < 1))
          | none => true := by
  constructor
  · intro now g h
    unfold throttle_rollouts
    dsimp only
    apply List.filter_eq_self.mpr
    intro e _
    rcases hg : g.nodes.get? e.2 with _ | rel
    · rfl
    · have hrel : rel ∈ g.nodes := List.get?_mem hg
      dsimp only
      have hnn := rolloutThrottling_nonneg now (h rel hrel).1 (h rel hrel).2
      unfold nodeHidden
      simp [not_lt.mpr hnn]
  · intro now g
    rfl

/-- C8 counterexample: a rollout whose `start_value` string parses to a
negative number has negative throttling, so even wariness 0 hides its
incoming edge. -/
theorem c8_throttle_zero_counterexample :
    (throttle_rollouts 5 c8Graph 0).edges = [] ∧ c8Graph.edges = [(0, 1)] ∧
      (throttle_rollouts 5 c8Graph 0).edges ≠ c8Graph.edges := by
  have hhid : nodeHidden 5 0 c8Node = true := by
    unfold nodeHidden
    rw [show (c8Node.metadata ROLLOUT).isSome = true from rfl]
    simp [c8Node_throttling_neg]
  have e1 : (throttle_rollouts 5 c8Graph 0).edges = [] := by
    unfold throttle_rollouts
    dsimp only
    rw [show c8Graph.edges = [(0, 1)] from rfl]
    rw [List.filter_cons]
    rw [show c8Graph.nodes.get? (0, 1).2 = some c8Node from rfl]
    dsimp only
    rw [hhid]
    simp [List.filter_nil]
  exact ⟨e1, rfl, by rw [e1]; decide⟩

/-- C8 witness: the wariness-0 statement applied to a well-formed
rollout graph. -/
theorem c8_throttle_extremes_witness :
    (∀ rel ∈ c8WitGraph.nodes, startValueOK rel.metadata = true ∧
        rolloutBoundsOK rel.metadata = true) ∧
      (throttle_rollouts 7 c8WitGraph 0).edges = c8WitGraph.edges :=
  ⟨by decide, c8_throttle_extremes.1 7 c8WitGraph (by decide)⟩

/-- C9: the scraper's `GetCachedGraph` handler returns the cached buffer
and increments exactly the matching cache-requests counter when the
requested scope matches what the scraper serves; on a stream mismatch or
an unknown basearch it returns an error and leaves the state — metrics
included — untouched; in particular a `(x86_64, stable)` request on the
`(x86_64, testing)` scraper errors without touching any metric. -/
theorem c9_get_cached_graph :
    (∀ (s : Scraper) (scope : GraphScope) (buf : String),
        scope.stream = s.stream →
        (if scope.oci then s.oci_graphs else s.graphs).lookup scope.basearch = some buf →
        handleGetCachedGraph s scope =
          (Except.ok buf,
            { s with
              cachedGraphRequests := fun l =>
                if l = (scope.basearch, scope.stream,
                    if scope.oci then "oci" else "checksum") then
                  s.cachedGraphRequests l + 1
                else s.cachedGraphRequests l })) ∧
      (∀ (s : Scraper) (scope : GraphScope),
        scope.stream ≠ s.stream →
        handleGetCachedGraph s scope =
          (Except.error ("unexpected stream " ++ scope.stream), s)) ∧
      (∀ (s : Scraper) (scope : GraphScope),
        scope.stream = s.stream →
        (if scope.oci then s.oci_graphs else s.graphs).lookup scope.basearch = none →
        handleGetCachedGraph s scope =
          (Except.error ("unexpected basearch " ++ scope.basearch), s)) ∧
      handleGetCachedGraph c9Scraper c9MismatchScope =
        (Except.error ("unexpected stream " ++ "stable"), c9Scraper) := by
  refine ⟨?_, ?_, ?_, ?_⟩
  · intro s scope buf hstream hlook
    unfold handleGetCachedGraph
    rw [if_neg (fun hc => hc hstream)]
    dsimp only
    rw [hlook]
  · intro s scope h
    unfold handleGetCachedGraph
    rw [if_pos h]
  · intro s scope hstream hlook
    unfold handleGetCachedGraph
    rw [if_neg (fun hc => hc hstream)]
    dsimp only
    rw [hlook]
  · rfl

/-- C9 witness: a matching `(x86_64, testing)` request returns the
cached buffer and bumps the matching counter. -/
theorem c9_get_cached_graph_witness :
    c9MatchScope.stream = c9Scraper.stream ∧
      (if c9MatchScope.oci then c9Scraper.oci_graphs else c9Scraper.graphs).lookup
          c9MatchScope.basearch = some "serialized-testing-graph" ∧
      handleGetCachedGraph c9Scraper c9MatchScope =
        (Except.ok "serialized-testing-graph",
          { c9Scraper with
            cachedGraphRequests := fun l =>
              if l = (c9MatchScope.basearch, c9MatchScope.stream,
                  if c9MatchScope.oci then "oci" else "checksum") then
                c9Scraper.cachedGraphRequests l + 1
              else c9Scraper.cachedGraphRequests l }) :=
  ⟨rfl, rfl,
    c9_get_cached_graph.1 c9Scraper c9MatchScope "serialized-testing-graph" rfl rfl⟩
